import Mathlib

/-
Verification development for the clean_switch repository (topology crawl,
snapshot store and migration diff engine).

The Python sources are shallowly embedded as executable Lean definitions:

  - topology_crawl.py : device identity keys, neighbor extraction, the
    address resolution chain, the subnet allow-list check and the BFS
    crawl scheduler (the external collector and DNS resolver are
    parameters of the embedding; the IPv4 parsing done by the standard
    ipaddress module is modelled concretely for dotted-quad addresses
    and prefix-length CIDR strings, the scope every claim exercises).
  - history_json.py : the snapshot store with bounded retention
    (the per-host history directory is modelled as the set of snapshot
    timestamps it contains, kept as a sorted list without duplicates;
    deletion failures are modelled by an oracle saying which files the
    operating system lets us remove).
  - ideia6_features.py : the per-domain diff engine (VLANs, interfaces,
    port-channels, trunks, neighbors) together with its helpers
    (command maps, alias-tolerant lookups, interface-name
    canonicalization, VLAN range expansion, CDP/LLDP neighbor merge).

Python strings are modelled as Lean strings; the string primitives
(strip, lower, replace, split, in) are re-implemented structurally over
the character list so that every definition evaluates inside the kernel.
Case mapping and digit tests are modelled at ASCII scope, which covers
all the table headers and sentinels the code manipulates.
-/

/-! ### Python string primitives -/

/-- Model of str.lower (ASCII scope). -/
def lowerS (s : String) : String := String.mk (s.data.map Char.toLower)

def isSpaceC (c : Char) : Bool := c.isWhitespace

/-- Model of str.strip() with no argument: remove leading and trailing whitespace. -/
def stripS (s : String) : String :=
  String.mk (((s.data.dropWhile isSpaceC).reverse.dropWhile isSpaceC).reverse)

def replAux (pat rep : List Char) (skip : Nat) : List Char → List Char
  | [] => []
  | c :: t =>
    match skip with
    | n+1 => replAux pat rep n t
    | 0 =>
      if pat.isPrefixOf (c :: t) then rep ++ replAux pat rep (pat.length - 1) t
      else c :: replAux pat rep 0 t

/-- Model of str.replace: replace all non-overlapping occurrences, left to right. -/
def replaceS (s pat rep : String) : String :=
  if pat.data.isEmpty then s else String.mk (replAux pat.data rep.data 0 s.data)

/-- Model of the Python expression pat in hay (substring containment). -/
def isSubS (needle hay : String) : Bool := go needle.data hay.data
where go (pat : List Char) : List Char → Bool
  | [] => pat.isEmpty
  | c :: t => pat.isPrefixOf (c :: t) || go pat t

/-- Model of str.isdigit at ASCII scope: nonempty and all decimal digits. -/
def strIsDigits (s : String) : Bool := s ≠ "" && s.data.all Char.isDigit

/-- Value of an all-digit decimal string (what int() returns on it). -/
def strToNat (s : String) : Nat := s.data.foldl (fun n c => n * 10 + (c.toNat - 48)) 0

def natDigitsAux : Nat → Nat → List Char
  | 0, _ => []
  | _+1, 0 => []
  | fuel+1, n => natDigitsAux fuel (n / 10) ++ [Char.ofNat (48 + n % 10)]

/-- Decimal rendering of a natural number (what str() returns on it). -/
def natToS (n : Nat) : String :=
  if n = 0 then "0" else String.mk (natDigitsAux n n)

def splitCharAux (sep : Char) : List Char → List Char → List (List Char)
  | [], acc => [acc.reverse]
  | c :: t, acc =>
    if c = sep then acc.reverse :: splitCharAux sep t [] else splitCharAux sep t (c :: acc)

/-- Model of str.split with a one-character separator (no maxsplit). -/
def splitC (sep : Char) (s : String) : List String :=
  (splitCharAux sep s.data []).map String.mk

def breakAtAux (sep : Char) (acc : List Char) : List Char → Option (String × String)
  | [] => none
  | c :: t => if c = sep then some (String.mk acc.reverse, String.mk t) else breakAtAux sep (c :: acc) t

/-- Model of str.split(sep, 1): the pieces before and after the first occurrence,
when the separator occurs at all. -/
def breakAt (sep : Char) (s : String) : Option (String × String) := breakAtAux sep [] s.data

/-- Python or on strings: the left operand unless it is empty (falsy). -/
def pyOr (a b : String) : String := if a = "" then b else a

/-- Lexicographic comparison of character lists by code point, non-strict. -/
def clLe : List Char → List Char → Bool
  | [], _ => true
  | _ :: _, [] => false
  | a :: s, b :: t => if a < b then true else if b < a then false else clLe s t

/-- Lexicographic comparison of character lists by code point, strict. -/
def clLt : List Char → List Char → Bool
  | [], [] => false
  | [], _ :: _ => true
  | _ :: _, [] => false
  | a :: s, b :: t => if a < b then true else if b < a then false else clLt s t

/-- Model of Python string comparison x <= y (lexicographic by code point). -/
def strLeB (x y : String) : Bool := clLe x.data y.data

/-- Model of Python string comparison x < y (lexicographic by code point). -/
def strLtB (x y : String) : Bool := clLt x.data y.data

def commaC : Char := Char.ofNat 44
def dotC : Char := Char.ofNat 46
def dashC : Char := Char.ofNat 45
def slashC : Char := Char.ofNat 47

/-! ### Model of the ipaddress module (IPv4 scope)

ip_address and ip_network come from the Python standard library; the model
covers dotted-quad IPv4 addresses and prefix-length CIDR strings, which is
the shape of every address and allow-list entry the crawler handles.  A
string outside that grammar parses to none, exactly where the library
raises ValueError. -/

/-- One dotted-quad octet: nonempty, all digits, no leading zero, at most 255. -/
def parseOctet (s : String) : Option Nat :=
  if strIsDigits s ∧ (s.data.length = 1 ∨ s.data.head? ≠ some (Char.ofNat 48)) ∧ strToNat s ≤ 255
  then some (strToNat s) else none

/-- Model of ip_address for IPv4: the address as a number below 2 to the 32. -/
def parseIPv4 (s : String) : Option Nat :=
  match (splitC dotC s).map parseOctet with
  | [some a, some b, some c, some d] => some (((a * 256 + b) * 256 + c) * 256 + d)
  | _ => none

/-- One prefix length: all digits, no leading zero, at most 32. -/
def parsePrefixLen (s : String) : Option Nat :=
  if strIsDigits s ∧ (s.data.length = 1 ∨ s.data.head? ≠ some (Char.ofNat 48)) ∧ strToNat s ≤ 32
  then some (strToNat s) else none

/-- Model of ip_network(cidr, strict=False) for IPv4: base address and prefix
length.  A bare address is a /32 network, as in the library. -/
def parseNetwork (s : String) : Option (Nat × Nat) :=
  match breakAt slashC s with
  | none => (parseIPv4 s).map (fun a => (a, 32))
  | some (addr, plen) =>
    match parseIPv4 addr, parsePrefixLen plen with
    | some a, some p => some ((a, p))
    | _, _ => none

/-- Membership of an address in a network: the two agree on the prefix bits
(strict=False masks the host bits of the base address, which is exactly
what dividing both sides by the host-part size expresses). -/
def netContains (net : Nat × Nat) (ip : Nat) : Bool :=
  ip / 2 ^ (32 - net.2) = net.1 / 2 ^ (32 - net.2)

/-! ### topology_crawl.py -/

/-- One collected table: the tuple (cmd, raw, headers, rows). -/
structure CommandEntry where
  cmd : String
  raw : String
  headers : List String
  rows : List (List String)
deriving DecidableEq

/-- A collected device: the list of command tables. -/
abbrev Collected := List CommandEntry

/-- Dataclass DeviceKey of topology_crawl.py. -/
structure DeviceKey where
  serial : Option String := none
  mgmt_ip : Option String := none
deriving DecidableEq

/-- DeviceKey.best: serial or mgmt_ip or the literal unknown, where both
fields are falsy when absent or empty. -/
def DeviceKey.best (k : DeviceKey) : String :=
  pyOr (k.serial.getD "") (pyOr (k.mgmt_ip.getD "") "unknown")

/-- Dataclass Neighbor of topology_crawl.py. -/
structure NeighborT where
  device_id : String
  mgmt_ip : Option String
deriving DecidableEq

/-- Helper norm of topology_crawl.py: str() then strip (cells are strings here). -/
def normS (s : String) : String := stripS s

/-- Helper in_allowed_subnets of topology_crawl.py.  and empty allow-list
accepts everything; a CIDR entry that fails to parse is skipped by the
except/continue in the loop body. -/
def in_allowed_subnets (ip : String) (allowed : Option (List String)) : Bool :=
  match allowed with
  | none => true
  | some [] => true
  | some cidrs =>
    match parseIPv4 ip with
    | none => false
    | some ipx => cidrs.any (fun cidr =>
        match parseNetwork cidr with
        | none => false
        | some net => netContains net ipx)

/-- The headers index map of topology_crawl.py: strip+lower each header,
mapping to its position; on duplicate headers the dict comprehension keeps
the last position, which lookupLastIdx reproduces. -/
def headersIndexPairs (headers : List String) : List (String × Nat) :=
  (headers.enum).map (fun hi => (lowerS (stripS hi.2), hi.1))

def lookupLastIdx (pairs : List (String × Nat)) (key : String) : Option Nat :=
  pairs.foldl (fun acc kv => if kv.1 = key then some kv.2 else acc) none

/-- Helper find_col_idx of topology_crawl.py: exact candidates first
(case-insensitive, spaces folded to underscores), then substring match. -/
def find_col_idx (headers : List String) (exacts contains : List String) : Option Nat :=
  if headers = [] then none
  else
    let exacts := exacts.map (fun e => replaceS (lowerS (stripS e)) " " "_")
    let contains := contains.map (fun c => lowerS (stripS c))
    let norm := headers.map (fun h => lowerS (stripS h))
    let normUnderscore := norm.map (fun h => replaceS h " " "_")
    match (normUnderscore.enum).find? (fun hi => exacts.contains hi.2) with
    | some hi => some hi.1
    | none =>
      match (norm.enum).find? (fun hi => contains.any (fun c => isSubS c hi.2)) with
      | some hi => some hi.1
      | none => none

/-- Helper extract_device_key_from_collected of topology_crawl.py: first
non-empty serial cell of a show version table, else the first non-empty
cell of a serial-like column of a show inventory table.  The management
address is never filled in: the source builds DeviceKey(serial=serial). -/
def extract_device_key_from_collected (collected : List CommandEntry) : DeviceKey :=
  let fromVersion := collected.findSome? (fun e =>
    let cl := lowerS (stripS e.cmd)
    if isSubS "show version" cl ∧ e.headers ≠ [] ∧ e.rows ≠ [] then
      match lookupLastIdx (headersIndexPairs e.headers) "serial" with
      | some i =>
        match e.rows.head? with
        | some r0 =>
          if i < r0.length then
            let serial := normS (r0.getD i "")
            if serial ≠ "" then some serial else none
          else none
        | none => none
      | none => none
    else none)
  let serial :=
    match fromVersion with
    | some s => some s
    | none => collected.findSome? (fun e =>
        let cl := lowerS (stripS e.cmd)
        if isSubS "show inventory" cl ∧ e.headers ≠ [] ∧ e.rows ≠ [] then
          match find_col_idx e.headers ["serial", "sn"] ["serial"] with
          | some i => e.rows.findSome? (fun r =>
              let sv := if i < r.length then normS (r.getD i "") else ""
              if sv ≠ "" then some sv else none)
          | none => none
        else none)
  { serial := serial }

/-- Normalization of the sentinel not advertised inside the neighbor loop. -/
def dropNotAdvertised (s : String) : String :=
  if s ≠ "" ∧ lowerS s ≠ "not advertised" then s else ""

/-- The per-table part of extract_neighbors_from_collected: locate the
device and address columns and read every row. -/
def neighborsFromTables (cmdNameMatch : String) (collected : List CommandEntry) :
    List NeighborT :=
  collected.flatMap (fun e =>
    if isSubS cmdNameMatch (lowerS e.cmd) ∧ e.headers ≠ [] ∧ e.rows ≠ [] then
      let devIdx := find_col_idx e.headers
        ["neighbor_name", "Neighbour_name", "destination_host", "device_id", "device",
         "remote_system_name", "system_name"]
        ["device id", "destination", "system name", "remote_system"]
      let ipIdx := find_col_idx e.headers
        ["mgmt_address", "Mgmt_address", "management_ip", "mgmt_ip",
         "ip_address", "management_address"]
        ["ip address", "management address", "mgmt addr"]
      e.rows.map (fun r =>
        let dev :=
          match devIdx with
          | some i => if i < r.length then stripS (r.getD i "") else ""
          | none => ""
        let ipv :=
          match ipIdx with
          | some i => if i < r.length then stripS (r.getD i "") else ""
          | none => ""
        let dev := dropNotAdvertised dev
        let ipv := dropNotAdvertised ipv
        { device_id := dev, mgmt_ip := if ipv = "" then none else some ipv })
    else [])

/-- Helper extract_neighbors_from_collected of topology_crawl.py:
CDP detail tables first; LLDP detail only when CDP yielded nothing. -/
def extract_neighbors_from_collected (collected : List CommandEntry) : List NeighborT :=
  let out := neighborsFromTables "cdp neighbors detail" collected
  if out ≠ [] then out else neighborsFromTables "lldp neighbors detail" collected

/-- The external collaborators of the crawl: the SSH collector (hostname,
timestamp and collected tables on success, none when the connection,
authentication or command fails and the exception is caught) and the DNS
resolver behind resolve_dns. -/
structure CrawlEnv where
  collect : String → Option (String × String × List CommandEntry)
  dns : String → Option String

/-- Python dict lookup used for the host map. -/
def hostmapGet (hostmap : List (String × String)) (k : String) : Option String :=
  match hostmap with
  | [] => none
  | kv :: t => if kv.1 = k then some kv.2 else hostmapGet t k

/-- The address resolution chain applied to one neighbor inside the crawl
loop: adjacency-table management address, then DNS when enabled and the
neighbor is named, then the host map override, applied last and
unconditionally. -/
def resolveNip (env : CrawlEnv) (dnsFallback : Bool) (hostmap : List (String × String))
    (n : NeighborT) : String :=
  let nip := stripS (n.mgmt_ip.getD "")
  let nip :=
    if nip = "" ∧ dnsFallback = true ∧ n.device_id ≠ "" then
      match env.dns n.device_id with
      | some resolved => if resolved ≠ "" then resolved else nip
      | none => nip
    else nip
  match hostmapGet hostmap n.device_id with
  | some mapped => mapped
  | none => nip

/-- The neighbor enqueueing loop: resolve each neighbor, drop it when no
address remains or the address is outside the allowed subnets, and enqueue
addresses not yet seen at depth+1.  seen is the seen-address set at the
moment of expansion (it is not updated inside the loop). -/
def enqueueFrom (env : CrawlEnv) (dnsFallback : Bool) (hostmap : List (String × String))
    (allowed : Option (List String)) (seen : List String)
    (neighs : List NeighborT) (depth : Nat) : List (String × Nat) :=
  neighs.filterMap (fun n =>
    let nip := resolveNip env dnsFallback hostmap n
    if nip = "" then none
    else if in_allowed_subnets nip allowed = false then none
    else if nip ∈ seen then none
    else some (nip, depth + 1))

/-- The scheduler state of crawl_topology: work queue, seen-address set,
visited-identity set, the returned (hostname, report path) pairs, and the
log of snapshots persisted (hostname, timestamp). -/
structure CrawlState where
  queue : List (String × Nat)
  seen : List String
  visited : List String
  results : List (String × String)
  snaps : List (String × String)
deriving DecidableEq

/-- One iteration of the while loop of crawl_topology: dequeue an address;
discard it when already seen or outside the allowed subnets; collect; on
success compute the identity key, skip report generation when the key was
already visited and otherwise persist the snapshot and append the report;
finally, in either case, expand neighbors when depth < maxDepth. -/
def crawlStep (env : CrawlEnv) (maxDepth : Nat) (allowed : Option (List String))
    (dnsFallback : Bool) (hostmap : List (String × String)) (st : CrawlState) : CrawlState :=
  match st.queue with
  | [] => st
  | (ip, depth) :: rest =>
    if ip ∈ st.seen then { st with queue := rest }
    else
      let st1 := { st with queue := rest, seen := ip :: st.seen }
      if in_allowed_subnets ip allowed = false then st1
      else
        match env.collect ip with
        | none => st1
        | some (host, ts, collected) =>
          let key_id := (extract_device_key_from_collected collected).best
          let st2 :=
            if key_id ∈ st1.visited then st1
            else { st1 with
                    visited := key_id :: st1.visited,
                    snaps := st1.snaps ++ [(host, ts)],
                    results := st1.results ++ [(host, host ++ "_levantamento.xlsx")] }
          let extra := enqueueFrom env dnsFallback hostmap allowed st1.seen
            (extract_neighbors_from_collected collected) depth
          if depth < maxDepth then { st2 with queue := st2.queue ++ extra }
          else st2

/-- The while loop of crawl_topology, with explicit fuel bounding the number
of iterations (each iteration consumes one queue entry). -/
def crawlRun (env : CrawlEnv) (maxDepth : Nat) (allowed : Option (List String))
    (dnsFallback : Bool) (hostmap : List (String × String)) :
    Nat → CrawlState → CrawlState
  | 0, st => st
  | fuel+1, st =>
    match st.queue with
    | [] => st
    | _ :: _ => crawlRun env maxDepth allowed dnsFallback hostmap fuel
        (crawlStep env maxDepth allowed dnsFallback hostmap st)

/-- crawl_topology from a seed address with empty traversal state. -/
def crawl_topology (env : CrawlEnv) (seed : String) (maxDepth : Nat)
    (allowed : Option (List String)) (dnsFallback : Bool)
    (hostmap : List (String × String)) (fuel : Nat) : CrawlState :=
  crawlRun env maxDepth allowed dnsFallback hostmap fuel
    { queue := [(seed, 0)], seen := [], visited := [], results := [], snaps := [] }

/-! ### history_json.py

The per-host history directory is modelled by the list of snapshot
timestamps it contains, kept sorted ascending without duplicates (a
canonical representation of the set of files; list_snapshots sorts the
directory listing by the timestamp part of the basename, so this sorted
list is exactly what list_snapshots returns).  The deletion oracle says
which files os.remove succeeds on; a failure is swallowed by the
try/except OSError block. -/

/-- Python string comparison as a relation (used to sort timestamps, diff
keys and member names). -/
def strLe (x y : String) : Prop := strLeB x y = true

instance : DecidableRel strLe := fun x y => instDecidableEqBool (strLeB x y) true

/-- snapshot_path of history_json.py, relative to the base directory. -/
def snapshot_path (hostname ts : String) : String :=
  "_history/" ++ hostname ++ "/" ++ ts ++ ".json"

/-- The history directory after shutil.move places the new snapshot file:
insert the timestamp, overwriting (set semantics) when it already exists. -/
def insertTs (ts : String) (store : List String) : List String :=
  if ts ∈ store then store else List.orderedInsert strLe ts store

/-- save_snapshot of history_json.py on one host directory: write the new
snapshot, then delete every file of the oversize prefix (the oldest
len - maxKeep files) that the oracle lets us delete.  Returns the final
path of the new snapshot together with the directory contents. -/
def save_snapshot (canDelete : String → Bool) (maxKeep : Nat) (store : List String)
    (hostname ts : String) : String × List String :=
  let files := insertTs ts store
  let surplus := files.length - maxKeep
  (snapshot_path hostname ts,
   (files.take surplus).filter (fun f => !canDelete f) ++ files.drop surplus)

/-- Repeated saves (one crawl after another) with every deletion succeeding. -/
def saveAll (maxKeep : Nat) (hostname : String) (store : List String)
    (tss : List String) : List String :=
  tss.foldl (fun st ts => (save_snapshot (fun _ => true) maxKeep st hostname ts).2) store

/-- Ascending sort by timestamp, the order list_snapshots presents files in. -/
def sortTs (l : List String) : List String := List.insertionSort strLe l

/-! ### ideia6_features.py: command maps and dictionaries

Parsed rows are Python dicts from lower-cased header to cell text; a dict
is modelled as an association list whose insert overwrites in place (the
insertion-order iteration semantics of Python dicts). -/

/-- A parsed row: dict from normalized header name to cell text. -/
abbrev Pydict := List (String × String)

/-- Python dict assignment d[k] = v: overwrite in place, else append. -/
def dictSet (d : Pydict) (k v : String) : Pydict :=
  match d with
  | [] => [(k, v)]
  | (k0, v0) :: t => if k0 = k then (k, v) :: t else (k0, v0) :: dictSet t k v

/-- Python dict lookup d.get(k). -/
def dictGet (d : Pydict) (k : String) : Option String :=
  match d with
  | [] => none
  | kv :: t => if kv.1 = k then some kv.2 else dictGet t k

/-- d.get(k) coerced through Python truthiness: empty string when missing. -/
def get0 (d : Pydict) (k : String) : String := (dictGet d k).getD ""

/-- Helper pick of ideia6_features.py: the first key whose value is present
and not whitespace-only, returned unstripped. -/
def pickD (d : Pydict) : List String → String
  | [] => ""
  | k :: t =>
    match dictGet d k with
    | some v => if stripS v ≠ "" then v else pickD d t
    | none => pickD d t

/-- One row of snapshot_to_cmdmap: zip the lower-cased headers with the
cells, later duplicate headers overwriting earlier ones. -/
def rowToDict (low : List String) (r : List String) : Pydict :=
  (low.zip r).foldl (fun d hv => dictSet d hv.1 hv.2) []

/-- The command map: insertion-ordered dict from lower-cased command to the
list of parsed rows. -/
abbrev Cmdmap := List (String × List Pydict)

def cmdmapSet (m : Cmdmap) (k : String) (v : List Pydict) : Cmdmap :=
  match m with
  | [] => [(k, v)]
  | (k0, v0) :: t => if k0 = k then (k, v) :: t else (k0, v0) :: cmdmapSet t k v

/-- snapshot_to_cmdmap of ideia6_features.py: parse every item with a
non-empty table into dicts; items without headers or rows map to the
empty parsed list. -/
def snapshot_to_cmdmap (items : List CommandEntry) : Cmdmap :=
  items.foldl (fun out it =>
    let cmd := lowerS (stripS it.cmd)
    let headers := it.headers.map stripS
    if headers ≠ [] ∧ it.rows ≠ [] then
      let low := headers.map lowerS
      cmdmapSet out cmd (it.rows.map (rowToDict low))
    else cmdmapSet out cmd []) []

/-- get_parsed of ideia6_features.py: the parsed rows of the first command
containing the key as a substring. -/
def get_parsed (m : Cmdmap) (key : String) : List Pydict :=
  let key := lowerS key
  match m.find? (fun kv => isSubS key kv.1) with
  | some kv => kv.2
  | none => []

/-- norm_ifname of ideia6_features.py: strip, then the fixed chain of
abbreviation replacements, applied in source order. -/
def norm_ifname (s : String) : String :=
  let s := stripS s
  let s := replaceS s "GigabitEthernet" "Gi"
  let s := replaceS s "TenGigabitEthernet" "Te"
  let s := replaceS s "FastEthernet" "Fa"
  let s := replaceS s "Port-channel" "Po"
  let s := replaceS s "Port-Channel" "Po"
  replaceS s "Ethernet" "Eth"

/-! ### ideia6_features.py: VLAN range expansion -/

/-- The sort key of split_allowed: all-digit tokens first, ordered by their
numeric value, then the remaining tokens in lexicographic order. -/
def vlanTokLeB (x y : String) : Bool :=
  match strIsDigits x, strIsDigits y with
  | true, true => strToNat x ≤ strToNat y
  | true, false => true
  | false, true => false
  | false, false => strLeB x y

def vlanTokLe (x y : String) : Prop := vlanTokLeB x y = true

instance : DecidableRel vlanTokLe := fun x y => instDecidableEqBool (vlanTokLeB x y) true

/-- split_allowed of ideia6_features.py: drop spaces, bail out on empty or
the literal none, split on commas, expand digit-digit ranges inclusively,
drop empty tokens, deduplicate and sort with the numeric-first key. -/
def split_allowed (s : String) : List String :=
  let s := replaceS s " " ""
  if s = "" ∨ s = "none" then []
  else
    let parts := splitC commaC s
    let out := parts.flatMap (fun p =>
      if isSubS "-" p then
        match breakAt dashC p with
        | some (a, b) =>
          if strIsDigits a ∧ strIsDigits b then
            (List.range (strToNat b + 1 - strToNat a)).map (fun i => natToS (strToNat a + i))
          else []
        | none => []
      else [p])
    let out := out.filter (fun x => x ≠ "")
    List.insertionSort vlanTokLe out.dedup

/-! ### ideia6_features.py: the per-domain diffs -/

/-- Membership of a VLAN row: the alias chain for the id column, then the
heuristic scan for the first short numeric cell, then a final digit check. -/
def vlanOfRow (d : Pydict) : Option String :=
  let v := pyOr (get0 d "vlan") (pyOr (get0 d "vlan id")
    (pyOr (get0 d "vlan-id") (pyOr (get0 d "vlanid") (get0 d "vlan_id"))))
  let v :=
    if v = "" then
      match d.find? (fun kv => strIsDigits (stripS kv.2) && strToNat (stripS kv.2) < 4096) with
      | some kv => stripS kv.2
      | none => ""
    else v
  if v ≠ "" ∧ strIsDigits (stripS v) then some (stripS v) else none

/-- Python set insertion, modelled as first-occurrence order. -/
def setAdd (l : List String) (x : String) : List String := if x ∈ l then l else l ++ [x]

/-- The set of VLAN ids of a parsed table (helper vlans inside diff_vlans). -/
def vlansOf (lst : List Pydict) : List String :=
  lst.foldl (fun out d =>
    match vlanOfRow d with
    | some v => setAdd out v
    | none => out) []

/-- Numeric order on the all-digit VLAN id strings (the int sort key). -/
def numLe (x y : String) : Prop := strToNat x ≤ strToNat y

instance : DecidableRel numLe := fun x y => Nat.decLe (strToNat x) (strToNat y)

/-- Python set difference b - a on insertion-ordered lists. -/
def sdiffL (b a : List String) : List String := b.filter (fun x => !(a.contains x))

structure VlanDelta where
  added : List String
  removed : List String
deriving DecidableEq

/-- diff_vlans of ideia6_features.py. -/
def diff_vlans (prev_map curr_map : Cmdmap) : VlanDelta :=
  let pv := get_parsed prev_map "show vlan brief"
  let cv := get_parsed curr_map "show vlan brief"
  let a := vlansOf pv
  let b := vlansOf cv
  { added := List.insertionSort numLe (sdiffL b a),
    removed := List.insertionSort numLe (sdiffL a b) }

/-- Python dict assignment for the record-style key maps (overwrite in place). -/
def assocSet {α : Type} (m : List (String × α)) (k : String) (v : α) : List (String × α) :=
  match m with
  | [] => [(k, v)]
  | (k0, v0) :: t => if k0 = k then (k, v) :: t else (k0, v0) :: assocSet t k v

/-- Python dict lookup for the record-style key maps. -/
def assocGet {α : Type} (m : List (String × α)) (k : String) : Option α :=
  match m with
  | [] => none
  | kv :: t => if kv.1 = k then some kv.2 else assocGet t k

/-- The shared tail of diff_interfaces, diff_portchannels and diff_trunks:
the sorted union of the keys of the before and after maps, and one emitted
entry per key whose attributes (absent keys read as the all-empty default)
differ between the two maps.  The three source functions repeat this
pattern inline with their own attribute record and emit shape. -/
def recordDelta {α β : Type} [DecidableEq α] (defa : α) (emit : String → α → α → β)
    (A B : List (String × α)) : List β :=
  let keys := List.insertionSort strLe ((A.map (·.1) ++ B.map (·.1)).dedup)
  keys.filterMap (fun k =>
    let a := (assocGet A k).getD defa
    let b := (assocGet B k).getD defa
    if a = b then none else some (emit k a b))

structure IfaceAttrs where
  status : String
  vlan : String
deriving DecidableEq

/-- The key map built inside diff_interfaces. -/
def interfacesMap (lst : List Pydict) : List (String × IfaceAttrs) :=
  lst.foldl (fun m d =>
    let iface := norm_ifname (pyOr (get0 d "port") (pyOr (get0 d "interface") (get0 d "name")))
    if iface = "" then m
    else assocSet m iface
      { status := lowerS (get0 d "status"),
        vlan := stripS (pyOr (get0 d "vlan") (get0 d "access vlan")) }) []

structure IfaceDelta where
  interface : String
  status_from : String
  status_to : String
  vlan_from : String
  vlan_to : String
deriving DecidableEq

/-- diff_interfaces of ideia6_features.py. -/
def diff_interfaces (prev_map curr_map : Cmdmap) : List IfaceDelta :=
  let A := interfacesMap (get_parsed prev_map "show interfaces status")
  let B := interfacesMap (get_parsed curr_map "show interfaces status")
  recordDelta { status := "", vlan := "" }
    (fun k a b => { interface := k, status_from := a.status, status_to := b.status,
                    vlan_from := a.vlan, vlan_to := b.vlan }) A B

def bracketC (c : Char) : Bool := c = Char.ofNat 91 || c = Char.ofNat 93

/-- str.strip applied with the bracket character pair as its argument. -/
def stripBrackets (s : String) : String :=
  String.mk (((s.data.dropWhile bracketC).reverse.dropWhile bracketC).reverse)

def joinSep (sep : String) : List String → String
  | [] => ""
  | [x] => x
  | x :: t => x ++ sep ++ joinSep sep t

/-- norm_members inside diff_portchannels: strip brackets, split the member
list, canonicalize each name, deduplicate and sort. -/
def norm_members (s : String) : String :=
  let s := stripBrackets (stripS s)
  let toks := ((splitC commaC (replaceS s ";" ",")).filter
    (fun x => stripS x ≠ "")).map norm_ifname
  joinSep ", " (List.insertionSort strLe toks.dedup)

structure PoAttrs where
  state : String
  members : String
deriving DecidableEq

/-- The key map built inside diff_portchannels. -/
def portchannelsMap (lst : List Pydict) : List (String × PoAttrs) :=
  lst.foldl (fun m d =>
    let po := norm_ifname (pickD d
      ["bundle_name", "port-channel", "port channel", "po", "portchannel", "group"])
    if po = "" then m
    else assocSet m po
      { state := pickD d ["bundle_status", "status", "bundle state", "flags"],
        members := norm_members (pickD d
          ["member_interfaces", "member interface", "member_interface",
           "interfaces", "members", "member ports", "member_ports"]) }) []

structure PoDelta where
  po : String
  state_from : String
  state_to : String
  members_from : String
  members_to : String
deriving DecidableEq

/-- diff_portchannels of ideia6_features.py. -/
def diff_portchannels (prev_map curr_map : Cmdmap) : List PoDelta :=
  let A := portchannelsMap (get_parsed prev_map "show etherchannel summary")
  let B := portchannelsMap (get_parsed curr_map "show etherchannel summary")
  recordDelta { state := "", members := "" }
    (fun k a b => { po := k, state_from := a.state, state_to := b.state,
                    members_from := a.members, members_to := b.members }) A B

structure TrunkAttrs where
  native : String
  allowed : String
deriving DecidableEq

/-- The key map built inside diff_trunks. -/
def trunksMap (lst : List Pydict) : List (String × TrunkAttrs) :=
  lst.foldl (fun m d =>
    let iface := norm_ifname (pyOr (get0 d "port") (get0 d "interface"))
    if iface = "" then m
    else
      let native := pyOr (get0 d "native") (pyOr (get0 d "native vlan")
        (pyOr (get0 d "native_vlan") (pyOr (get0 d "nativevlan") (get0 d "native vlan id"))))
      let allowed := pyOr (get0 d "vlans allowed") (pyOr (get0 d "allowed")
        (pyOr (get0 d "allowed_vlans") (pyOr (get0 d "vlans_allowed_on_trunk")
        (pyOr (get0 d "vlans allowed on trunk") (pyOr (get0 d "allowed_active_vlans")
        (get0 d "vlans allowed and active in management domain"))))))
      let allowed :=
        if stripS allowed = "" then
          pyOr (get0 d "allowed_vlans") (get0 d "allowed_active_vlans")
        else allowed
      assocSet m iface
        { native := stripS native, allowed := joinSep ", " (split_allowed allowed) }) []

structure TrunkDelta where
  interface : String
  native_from : String
  native_to : String
  allowed_from : String
  allowed_to : String
deriving DecidableEq

/-- diff_trunks of ideia6_features.py. -/
def diff_trunks (prev_map curr_map : Cmdmap) : List TrunkDelta :=
  let A := trunksMap (get_parsed prev_map "show interfaces trunk")
  let B := trunksMap (get_parsed curr_map "show interfaces trunk")
  recordDelta { native := "", allowed := "" }
    (fun k a b => { interface := k, native_from := a.native, native_to := b.native,
                    allowed_from := a.allowed, allowed_to := b.allowed }) A B

/-! ### ideia6_features.py: neighbors -/

/-- Helper nk of ideia6_features.py: rebuild the dict with keys stripped,
lower-cased and with spaces and hyphens folded to underscores. -/
def nkDict (d : Pydict) : Pydict :=
  d.foldl (fun out kv =>
    dictSet out (replaceS (replaceS (lowerS (stripS kv.1)) " " "_") "-" "_") kv.2) []

/-- One uniform neighbor row: neighbor, local_if, neighbor_if, proto. -/
structure NRow where
  neighbor : String
  local_if : String
  neighbor_if : String
  proto : String
deriving DecidableEq

/-- neighbor_rows_from_parsed of ideia6_features.py. -/
def neighbor_rows_from_parsed (lst : List Pydict) (proto : String) : List NRow :=
  lst.filterMap (fun raw =>
    let d := nkDict raw
    let neighbor := stripS (pickD d
      ["neighbor", "neighbor_name", "device_id", "system_name",
       "system_name_value", "chassis_id"])
    if neighbor = "" then none
    else
      let local_if := norm_ifname (pickD d
        ["local_if", "local_interface", "local_port", "local port", "interface"])
      let neighbor_if := norm_ifname (pickD d
        ["neighbor_if", "neighbor_interface", "neighbor_port",
         "port_id", "port description", "port_description", "port_id_value"])
      some { neighbor := neighbor, local_if := local_if, neighbor_if := neighbor_if,
             proto := proto })

/-- collect_neighbors of ideia6_features.py: CDP rows then LLDP rows, the
plain LLDP table standing in when the detail table is empty. -/
def collect_neighbors (m : Cmdmap) : List NRow :=
  let cdp := get_parsed m "show cdp neighbors detail"
  let lldp0 := get_parsed m "show lldp neighbors detail"
  let lldp := if lldp0 = [] then get_parsed m "show lldp neighbors" else lldp0
  neighbor_rows_from_parsed cdp "CDP" ++ neighbor_rows_from_parsed lldp "LLDP"

/-- The composite merge key: (neighbor, neighbor_if), case-folded. -/
abbrev NKey := String × String

def nkeyOf (r : NRow) : NKey := (lowerS (stripS r.neighbor), lowerS (stripS r.neighbor_if))

def nmapGet (m : List (NKey × NRow)) (k : NKey) : Option NRow :=
  match m with
  | [] => none
  | kv :: t => if kv.1 = k then some kv.2 else nmapGet t k

def nmapSet (m : List (NKey × NRow)) (k : NKey) (v : NRow) : List (NKey × NRow) :=
  match m with
  | [] => [(k, v)]
  | (k0, v0) :: t => if k0 = k then (k, v) :: t else (k0, v0) :: nmapSet t k v

/-- The body of the merge loop of merge_by_neighbor_port: the first row for
a key wins; a later row only back-fills an empty local_if. -/
def mergeStep (merged : List (NKey × NRow)) (r : NRow) : List (NKey × NRow) :=
  match nmapGet merged (nkeyOf r) with
  | none => merged ++ [(nkeyOf r, r)]
  | some cur =>
    if cur.local_if = "" ∧ r.local_if ≠ "" then
      nmapSet merged (nkeyOf r) { cur with local_if := r.local_if }
    else merged

/-- merge_by_neighbor_port of ideia6_features.py. -/
def merge_by_neighbor_port (rows : List NRow) : List (NKey × NRow) :=
  rows.foldl mergeStep []

/-- Invariant of the merge fold over the processed prefix of the rows: keys
are pairwise distinct, every processed row has its key in the map, every
stored row keeps its own key, and a stored local_if is empty only when every
processed row with that key had an empty one, and otherwise is the populated
local_if of one of them. -/
def MergeInv (procd : List NRow) (m : List (NKey × NRow)) : Prop :=
  (m.map (·.1)).Nodup ∧
  (∀ q ∈ procd, nkeyOf q ∈ m.map (·.1)) ∧
  (∀ kr ∈ m, nkeyOf kr.2 = kr.1 ∧
    (kr.2.local_if ≠ "" → ∃ q ∈ procd, nkeyOf q = kr.1 ∧ q.local_if = kr.2.local_if) ∧
    (kr.2.local_if = "" → ∀ q ∈ procd, nkeyOf q = kr.1 → q.local_if = ""))

/-- Python tuple comparison on the merge keys. -/
def pairLeB (p q : NKey) : Bool := strLtB p.1 q.1 || (p.1 = q.1 && strLeB p.2 q.2)

def pairLe (p q : NKey) : Prop := pairLeB p q = true

instance : DecidableRel pairLe := fun p q => instDecidableEqBool (pairLeB p q) true

/-- Python set difference on merge-key lists. -/
def keySdiff (b a : List NKey) : List NKey := b.filter (fun k => !(a.contains k))

structure NeighborRef where
  neighbor : String
  local_if : String
  neighbor_if : String
deriving DecidableEq

structure NeighborDelta where
  added : List NeighborRef
  removed : List NeighborRef
deriving DecidableEq

def nrefOf (r : NRow) : NeighborRef :=
  { neighbor := r.neighbor, local_if := r.local_if, neighbor_if := r.neighbor_if }

/-- diff_neighbors of ideia6_features.py. -/
def diff_neighbors (prev_map curr_map : Cmdmap) : NeighborDelta :=
  let prevRows := merge_by_neighbor_port (collect_neighbors prev_map)
  let currRows := merge_by_neighbor_port (collect_neighbors curr_map)
  let addedKeys := List.insertionSort pairLe
    (keySdiff (currRows.map (·.1)) (prevRows.map (·.1)))
  let removedKeys := List.insertionSort pairLe
    (keySdiff (prevRows.map (·.1)) (currRows.map (·.1)))
  { added := addedKeys.filterMap (fun k => (nmapGet currRows k).map nrefOf),
    removed := removedKeys.filterMap (fun k => (nmapGet prevRows k).map nrefOf) }

/-! ### ideia6_features.py: aggregation -/

structure MigrationDeltas where
  vlans : VlanDelta
  interfaces : List IfaceDelta
  portchannels : List PoDelta
  trunks : List TrunkDelta
  neighbors : NeighborDelta
deriving DecidableEq

/-- build_migration_deltas of ideia6_features.py. -/
def build_migration_deltas (prev_map curr_map : Cmdmap) : MigrationDeltas :=
  { vlans := diff_vlans prev_map curr_map,
    interfaces := diff_interfaces prev_map curr_map,
    portchannels := diff_portchannels prev_map curr_map,
    trunks := diff_trunks prev_map curr_map,
    neighbors := diff_neighbors prev_map curr_map }

/-- The call made by the report writer: an absent previous snapshot becomes
the empty command map (prev_map = empty dict when prev_snap is falsy). -/
def migration_deltas_of_snaps (prev : Option (List CommandEntry))
    (curr : List CommandEntry) : MigrationDeltas :=
  build_migration_deltas (match prev with
    | none => []
    | some s => snapshot_to_cmdmap s) (snapshot_to_cmdmap curr)

/-! ### A concrete two-device topology without serial numbers -/

/-- Collected tables of a device A with no serial column anywhere and one
CDP neighbor B at 10.0.0.2. -/
def collectedNoSerialA : List CommandEntry :=
  [{ cmd := "show version", raw := "", headers := ["Hostname", "Version"],
     rows := [["A", "15.2"]] },
   { cmd := "show cdp neighbors detail", raw := "",
     headers := ["Neighbor_name", "Mgmt_address"], rows := [["B", "10.0.0.2"]] }]

/-- Collected tables of a device B with no serial column and no neighbors. -/
def collectedNoSerialB : List CommandEntry :=
  [{ cmd := "show version", raw := "", headers := ["Hostname", "Version"],
     rows := [["B", "15.2"]] }]

/-- The collector reaching A at 10.0.0.1 and B at 10.0.0.2; DNS answers nothing. -/
def envTwoNoSerial : CrawlEnv :=
  { collect := fun ip =>
      if ip = "10.0.0.1" then some ("A", "ts1", collectedNoSerialA)
      else if ip = "10.0.0.2" then some ("B", "ts2", collectedNoSerialB)
      else none,
    dns := fun _ => none }

/-- A current snapshot whose only table lists one interface with no status
and no VLAN column: the interface is present, all its attributes empty. -/
def snapIfaceOnly : List CommandEntry :=
  [{ cmd := "show interfaces status", raw := "", headers := ["Port"], rows := [["Gi1"]] }]

/-- A current snapshot with two VLANs. -/
def snapVlansOnly : List CommandEntry :=
  [{ cmd := "show vlan brief", raw := "", headers := ["VLAN", "Name"],
     rows := [["10", "x"], ["20", "y"]] }]

/-- The same adjacency reported by CDP (with local interface) and by LLDP
(without): rows as collect_neighbors would produce them. -/
def nrowsCdpLldp : List NRow :=
  [{ neighbor := "sw2", local_if := "Gi1/0/1", neighbor_if := "Gi1/0/2", proto := "CDP" },
   { neighbor := "sw2", local_if := "", neighbor_if := "Gi1/0/2", proto := "LLDP" }]

/-! ### Order facts about the modelled Python comparisons -/

theorem clLe_refl : ∀ a : List Char, clLe a a = true
  | [] => rfl
  | c :: t => by simp [clLe, clLe_refl t]

theorem clLe_total : ∀ a b : List Char, clLe a b = true ∨ clLe b a = true
  | [], _ => Or.inl rfl
  | _ :: _, [] => Or.inr rfl
  | a :: s, b :: t => by
    rcases lt_trichotomy a b with h | h | h
    · exact Or.inl (by simp [clLe, h])
    · subst h
      rcases clLe_total s t with h2 | h2
      · exact Or.inl (by simp [clLe, h2])
      · exact Or.inr (by simp [clLe, h2])
    · exact Or.inr (by simp [clLe, h])

theorem clLe_trans : ∀ {a b c : List Char}, clLe a b = true → clLe b c = true → clLe a c = true
  | [], _, _, _, _ => rfl
  | _ :: _, [], _, h, _ => by simp [clLe] at h
  | _ :: _, _ :: _, [], _, h => by simp [clLe] at h
  | a :: s, b :: t, c :: u, h1, h2 => by
    by_cases hab : a < b
    · by_cases hbc : b < c
      · simp [clLe, lt_trans hab hbc]
      · by_cases hcb : c < b
        · simp [clLe, hbc, hcb] at h2
        · have hbc' : b = c := le_antisymm (not_lt.mp hcb) (not_lt.mp hbc)
          subst hbc'
          simp [clLe, hab]
    · by_cases hba : b < a
      · simp [clLe, hab, hba] at h1
      · have hab' : a = b := le_antisymm (not_lt.mp hba) (not_lt.mp hab)
        subst hab'
        by_cases hbc : a < c
        · simp [clLe, hbc]
        · by_cases hcb : c < a
          · simp [clLe, hbc, hcb] at h2
          · have hac : a = c := le_antisymm (not_lt.mp hcb) (not_lt.mp hbc)
            subst hac
            simp [clLe, lt_irrefl] at h1 h2 ⊢
            exact clLe_trans h1 h2

theorem clLe_antisymm : ∀ {a b : List Char}, clLe a b = true → clLe b a = true → a = b
  | [], [], _, _ => rfl
  | [], _ :: _, _, h => by simp [clLe] at h
  | _ :: _, [], h, _ => by simp [clLe] at h
  | a :: s, b :: t, h1, h2 => by
    by_cases hab : a < b
    · simp [clLe, hab, asymm hab] at h2
    · by_cases hba : b < a
      · simp [clLe, hab, hba] at h1
      · have hab' : a = b := le_antisymm (not_lt.mp hba) (not_lt.mp hab)
        subst hab'
        simp [clLe, lt_irrefl] at h1 h2
        rw [clLe_antisymm h1 h2]

theorem strLe_total (x y : String) : strLe x y ∨ strLe y x := clLe_total x.data y.data

theorem strLe_trans {x y z : String} (h1 : strLe x y) (h2 : strLe y z) : strLe x z :=
  clLe_trans h1 h2

theorem strLe_antisymm {x y : String} (h1 : strLe x y) (h2 : strLe y x) : x = y := by
  cases x with
  | mk dx =>
    cases y with
    | mk dy => exact congrArg String.mk (clLe_antisymm h1 h2)

instance : IsTotal String strLe := ⟨strLe_total⟩

instance : IsTrans String strLe := ⟨fun _ _ _ => strLe_trans⟩

instance : IsAntisymm String strLe := ⟨fun _ _ => strLe_antisymm⟩

instance : IsRefl String strLe := ⟨fun a => clLe_refl a.data⟩

theorem vlanTokLe_total (x y : String) : vlanTokLe x y ∨ vlanTokLe y x := by
  unfold vlanTokLe vlanTokLeB
  cases hx : strIsDigits x <;> cases hy : strIsDigits y <;> simp
  · exact clLe_total x.data y.data
  · exact Nat.le_total (strToNat x) (strToNat y)

theorem vlanTokLe_trans {x y z : String} (h1 : vlanTokLe x y) (h2 : vlanTokLe y z) :
    vlanTokLe x z := by
  unfold vlanTokLe vlanTokLeB at h1 h2 ⊢
  cases hx : strIsDigits x <;> cases hy : strIsDigits y <;> cases hz : strIsDigits z <;>
    simp_all
  · exact clLe_trans h1 h2
  · exact Nat.le_trans h1 h2

instance : IsTotal String vlanTokLe := ⟨vlanTokLe_total⟩

instance : IsTrans String vlanTokLe := ⟨fun _ _ _ => vlanTokLe_trans⟩

/-! ### Small facts about the embedded set and record operations -/

theorem sdiffL_self (l : List String) : sdiffL l l = [] := by
  unfold sdiffL
  rw [List.filter_eq_nil_iff]
  intro a ha
  simp [ha]

theorem keySdiff_self (l : List NKey) : keySdiff l l = [] := by
  unfold keySdiff
  rw [List.filter_eq_nil_iff]
  intro a ha
  simp [ha]

theorem recordDelta_self {α β : Type} [DecidableEq α] (defa : α) (emit : String → α → α → β)
    (M : List (String × α)) : recordDelta defa emit M M = [] := by
  unfold recordDelta
  refine List.filterMap_eq_nil_iff.mpr ?_
  intro k _
  simp

/-- C6: diffing a snapshot against itself yields an empty delta in every
domain: vlans and neighbors have empty added and removed sets, and the
interfaces, port-channels and trunks domains emit no delta entries. -/
theorem diff_self_empty (S : List CommandEntry) :
    migration_deltas_of_snaps (some S) S =
      { vlans := { added := [], removed := [] }, interfaces := [], portchannels := [],
        trunks := [], neighbors := { added := [], removed := [] } } := by
  have hv : diff_vlans (snapshot_to_cmdmap S) (snapshot_to_cmdmap S) =
      { added := [], removed := [] } := by
    unfold diff_vlans
    dsimp only
    rw [sdiffL_self]
    rfl
  have hi : diff_interfaces (snapshot_to_cmdmap S) (snapshot_to_cmdmap S) = [] := by
    unfold diff_interfaces
    dsimp only
    exact recordDelta_self _ _ _
  have hp : diff_portchannels (snapshot_to_cmdmap S) (snapshot_to_cmdmap S) = [] := by
    unfold diff_portchannels
    dsimp only
    exact recordDelta_self _ _ _
  have ht : diff_trunks (snapshot_to_cmdmap S) (snapshot_to_cmdmap S) = [] := by
    unfold diff_trunks
    dsimp only
    exact recordDelta_self _ _ _
  have hn : diff_neighbors (snapshot_to_cmdmap S) (snapshot_to_cmdmap S) =
      { added := [], removed := [] } := by
    unfold diff_neighbors
    dsimp only
    rw [keySdiff_self]
    rfl
  simp [migration_deltas_of_snaps, build_migration_deltas, hv, hi, hp, ht, hn]

/-- C7 counterexample: the expansion of 5,+ keeps the numeric token 5 ahead
of the non-numeric token +, although + precedes 5 lexicographically, so a
mixed token list is not sorted lexicographically. -/
theorem split_allowed_not_lexicographic : split_allowed "5,+" = ["5", "+"] ∧
    strLeB "+" "5" = true ∧ strLeB "5" "+" = false ∧ split_allowed "5,+" ≠ ["+", "5"] := by
  refine ⟨by decide, by decide, by decide, by decide⟩

/-- C7 amended: the compact text 10-12,20 expands to exactly the four tokens
10, 11, 12, 20, and for every input string the expanded list is sorted with
the numeric-first key: all-digit tokens first in numeric order, the other
tokens after them in lexicographic order (so an all-numeric expansion is in
numeric order and an all-non-numeric one is lexicographic). -/
theorem split_allowed_expansion :
    split_allowed "10-12,20" = ["10", "11", "12", "20"] ∧
    ∀ s : String, List.Sorted vlanTokLe (split_allowed s) := by
  constructor
  · decide
  · intro s
    unfold split_allowed
    by_cases h : replaceS s " " "" = "" ∨ replaceS s " " "" = "none"
    · rw [if_pos h]
      exact List.sorted_nil
    · rw [if_neg h]
      exact List.sorted_insertionSort vlanTokLe _

/-- C4 counterexample: an allow-list containing the unparsable entry
not-a-cidr is accepted at call time and evaluated per lookup; the malformed
entry is skipped at runtime (the later valid entry still matches), the
opposite of failing fast when the configuration is supplied. -/
theorem malformed_cidr_runtime_skip :
    parseNetwork "not-a-cidr" = none ∧
    in_allowed_subnets "10.0.0.1" (some ["not-a-cidr", "10.0.0.0/8"]) = true ∧
    in_allowed_subnets "10.0.0.1" (some ["not-a-cidr"]) = false := by
  refine ⟨by decide, by decide, by decide⟩

/-- C4 amended: an unparsable CIDR entry in the allow-list raises nothing at
call time; each membership check silently skips it (with other entries
present it behaves as if absent, and an allow-list consisting only of the
malformed entry matches no address at all). -/
theorem malformed_cidr_entries_ignored (ip bad : String) (rest : List String)
    (hbad : parseNetwork bad = none) :
    (rest ≠ [] →
      in_allowed_subnets ip (some (bad :: rest)) = in_allowed_subnets ip (some rest)) ∧
    in_allowed_subnets ip (some [bad]) = false := by
  constructor
  · intro hrest
    obtain ⟨r, rs, rfl⟩ := List.exists_cons_of_ne_nil hrest
    unfold in_allowed_subnets
    cases hip : parseIPv4 ip
    · rfl
    · simp [hbad]
  · unfold in_allowed_subnets
    cases hip : parseIPv4 ip
    · rfl
    · simp [hbad]

/-- C4 witness: the amended theorem applied at the counterexample input. -/
theorem malformed_cidr_entries_ignored_witness :
    parseNetwork "not-a-cidr" = none ∧
    (["10.0.0.0/8"] ≠ ([] : List String) →
      in_allowed_subnets "10.0.0.1" (some ["not-a-cidr", "10.0.0.0/8"]) =
        in_allowed_subnets "10.0.0.1" (some ["10.0.0.0/8"])) ∧
    in_allowed_subnets "10.0.0.1" (some ["not-a-cidr"]) = false :=
  ⟨by decide, (malformed_cidr_entries_ignored "10.0.0.1" "not-a-cidr" ["10.0.0.0/8"]
      (by decide)).1, (malformed_cidr_entries_ignored "10.0.0.1" "not-a-cidr" ["10.0.0.0/8"]
      (by decide)).2⟩

/-- C3: whenever the neighbor name is a key of the supplied host map, the
address resolution chain resolves to the mapped value, overriding whatever
the adjacency table or DNS produced in the earlier steps; the override is
applied last and unconditionally. -/
theorem hostmap_overrides_resolution (env : CrawlEnv) (dnsFallback : Bool)
    (hostmap : List (String × String)) (n : NeighborT) (v : String)
    (h : hostmapGet hostmap n.device_id = some v) :
    resolveNip env dnsFallback hostmap n = v := by
  unfold resolveNip
  rw [h]

/-- C3 witness: a neighbor with a non-empty adjacency-table address and a
successful DNS answer still resolves to the host-map value. -/
theorem hostmap_overrides_resolution_witness :
    hostmapGet [("swB", "1.2.3.4")] (NeighborT.mk "swB" (some "10.0.0.2")).device_id =
      some "1.2.3.4" ∧
    resolveNip { collect := fun _ => none, dns := fun _ => some "9.9.9.9" } true
      [("swB", "1.2.3.4")] (NeighborT.mk "swB" (some "10.0.0.2")) = "1.2.3.4" :=
  ⟨by decide, hostmap_overrides_resolution _ true [("swB", "1.2.3.4")]
    (NeighborT.mk "swB" (some "10.0.0.2")) "1.2.3.4" (by decide)⟩

/-- C10: the subnet check accepts every string, parseable or not, when the
allow-list is absent or empty, and rejects every string that is not a
parseable address once the allow-list is non-empty; consequently a neighbor
whose resolved address is non-address text is dropped from the expansion
queue under a non-empty allow-list but enqueued under an empty one. -/
theorem subnet_check_nonip (s : String) (allowed : List String) (env : CrawlEnv)
    (dnsF : Bool) (hm : List (String × String)) (seen : List String) (depth : Nat)
    (n : NeighborT)
    (hnon : allowed ≠ []) (hbad : parseIPv4 s = none) (hne : s ≠ "")
    (hres : resolveNip env dnsF hm n = s) (hseen : s ∉ seen) :
    in_allowed_subnets s none = true ∧
    in_allowed_subnets s (some []) = true ∧
    in_allowed_subnets s (some allowed) = false ∧
    enqueueFrom env dnsF hm (some allowed) seen [n] depth = [] ∧
    enqueueFrom env dnsF hm none seen [n] depth = [(s, depth + 1)] ∧
    enqueueFrom env dnsF hm (some []) seen [n] depth = [(s, depth + 1)] := by
  obtain ⟨c, cs, rfl⟩ := List.exists_cons_of_ne_nil hnon
  have hrej : in_allowed_subnets s (some (c :: cs)) = false := by
    unfold in_allowed_subnets
    rw [hbad]
  refine ⟨rfl, rfl, hrej, ?_, ?_, ?_⟩
  · unfold enqueueFrom
    simp [hres, hne, hrej]
  · unfold enqueueFrom
    simp [hres, hne, hseen, in_allowed_subnets]
  · unfold enqueueFrom
    simp [hres, hne, hseen, in_allowed_subnets]

/-- C10 witness: the hostname-shaped text sw-core resolved for a neighbor is
dropped under the allow-list 10.0.0.0/8 and enqueued when no allow-list
restriction is given. -/
theorem subnet_check_nonip_witness :
    ((["10.0.0.0/8"] : List String) ≠ [] ∧ parseIPv4 "sw-core" = none ∧
      ("sw-core" : String) ≠ "" ∧
      resolveNip { collect := fun _ => none, dns := fun _ => none } false []
        (NeighborT.mk "X" (some "sw-core")) = "sw-core" ∧
      "sw-core" ∉ ([] : List String)) ∧
    in_allowed_subnets "sw-core" (some ["10.0.0.0/8"]) = false ∧
    enqueueFrom { collect := fun _ => none, dns := fun _ => none } false []
      (some ["10.0.0.0/8"]) [] [NeighborT.mk "X" (some "sw-core")] 0 = [] ∧
    enqueueFrom { collect := fun _ => none, dns := fun _ => none } false []
      none [] [NeighborT.mk "X" (some "sw-core")] 0 = [("sw-core", 1)] := by
  have h := subnet_check_nonip "sw-core" ["10.0.0.0/8"]
    { collect := fun _ => none, dns := fun _ => none } false [] [] 0
    (NeighborT.mk "X" (some "sw-core"))
    (by decide) (by decide) (by decide) (by decide) (by decide)
  exact ⟨⟨by decide, by decide, by decide, by decide, by decide⟩,
    h.2.2.1, h.2.2.2.1, h.2.2.2.2.1⟩

/-- C1: two serial-less devices reached at the two distinct management
addresses 10.0.0.1 and 10.0.0.2 both resolve the identity key unknown: the
extractor builds the key with no management address at all, so the keys
collide, and within one crawl run only the first device receives a report
even though both were reached (both addresses are in the seen set). -/
theorem serialless_devices_collapse_to_unknown :
    extract_device_key_from_collected collectedNoSerialA =
      { serial := none, mgmt_ip := none } ∧
    extract_device_key_from_collected collectedNoSerialB =
      { serial := none, mgmt_ip := none } ∧
    (extract_device_key_from_collected collectedNoSerialA).best = "unknown" ∧
    (extract_device_key_from_collected collectedNoSerialB).best = "unknown" ∧
    (crawl_topology envTwoNoSerial "10.0.0.1" 1 none false [] 4).seen =
      ["10.0.0.2", "10.0.0.1"] ∧
    (crawl_topology envTwoNoSerial "10.0.0.1" 1 none false [] 4).results =
      [("A", "A_levantamento.xlsx")] := by
  refine ⟨by decide, by decide, by decide, by decide, by decide, by decide⟩

/-- C2: when a successfully collected device resolves an identity key that
is already in the visited set, the step skips snapshot persistence and the
report entry (results, snaps and visited are unchanged), while neighbor
expansion proceeds from the freshly collected data exactly as it does for a
first-visit device: the resulting queue and seen set coincide with those of
the same step run from a state whose visited set does not contain the key,
and only that first-visit state gains the report and the snapshot. -/
theorem crawl_visited_key_skips_report_but_expands
    (env : CrawlEnv) (maxDepth : Nat) (allowed : Option (List String)) (dnsF : Bool)
    (hm : List (String × String))
    (q2 : List (String × Nat)) (seen visited visited2 : List String)
    (results results2 snaps snaps2 : List (String × String))
    (ip : String) (depth : Nat) (host ts : String) (collected : List CommandEntry)
    (hseen : ip ∉ seen)
    (hallow : in_allowed_subnets ip allowed = true)
    (hcol : env.collect ip = some (host, ts, collected))
    (hvis : (extract_device_key_from_collected collected).best ∈ visited)
    (hvis2 : (extract_device_key_from_collected collected).best ∉ visited2) :
    let st : CrawlState := { queue := (ip, depth) :: q2, seen := seen, visited := visited,
                             results := results, snaps := snaps }
    let st2 : CrawlState := { queue := (ip, depth) :: q2, seen := seen, visited := visited2,
                              results := results2, snaps := snaps2 }
    let out := crawlStep env maxDepth allowed dnsF hm st
    let out2 := crawlStep env maxDepth allowed dnsF hm st2
    out.results = results ∧ out.snaps = snaps ∧ out.visited = visited ∧
    out.seen = ip :: seen ∧
    out.queue = q2 ++ (if depth < maxDepth then
        enqueueFrom env dnsF hm allowed (ip :: seen)
          (extract_neighbors_from_collected collected) depth
      else []) ∧
    out2.queue = out.queue ∧ out2.seen = out.seen ∧
    out2.results = results2 ++ [(host, host ++ "_levantamento.xlsx")] ∧
    out2.snaps = snaps2 ++ [(host, ts)] := by
  by_cases hd : depth < maxDepth <;>
    simp [crawlStep, hseen, hallow, hcol, hvis, hvis2, hd]

/-- C2 witness: at the concrete two-device topology, a state whose visited
set already holds the key unknown skips the report but builds the same
expansion queue as the first-visit state. -/
theorem crawl_visited_key_skips_report_but_expands_witness :
    (envTwoNoSerial.collect "10.0.0.1" = some ("A", "ts1", collectedNoSerialA) ∧
      (extract_device_key_from_collected collectedNoSerialA).best ∈ ["unknown"] ∧
      (extract_device_key_from_collected collectedNoSerialA).best ∉ ([] : List String)) ∧
    (crawlStep envTwoNoSerial 1 none false []
      { queue := [("10.0.0.1", 0)], seen := [], visited := ["unknown"],
        results := [], snaps := [] }).results = [] ∧
    (crawlStep envTwoNoSerial 1 none false []
      { queue := [("10.0.0.1", 0)], seen := [], visited := ["unknown"],
        results := [], snaps := [] }).snaps = [] ∧
    (crawlStep envTwoNoSerial 1 none false []
      { queue := [("10.0.0.1", 0)], seen := [], visited := ["unknown"],
        results := [], snaps := [] }).queue =
      (crawlStep envTwoNoSerial 1 none false []
        { queue := [("10.0.0.1", 0)], seen := [], visited := [],
          results := [], snaps := [] }).queue ∧
    (crawlStep envTwoNoSerial 1 none false []
      { queue := [("10.0.0.1", 0)], seen := [], visited := [],
        results := [], snaps := [] }).results = [("A", "A_levantamento.xlsx")] := by
  have h := crawl_visited_key_skips_report_but_expands envTwoNoSerial 1 none false []
    [] [] ["unknown"] [] [] [] [] [] "10.0.0.1" 0 "A" "ts1" collectedNoSerialA
    (by decide) (by decide) (by decide) (by decide) (by decide)
  exact ⟨⟨by decide, by decide, by decide⟩, h.1, h.2.1,
    h.2.2.2.2.2.1.symm, h.2.2.2.2.2.2.2.1⟩

/-! ### Lookup facts used by the absent-previous-snapshot analysis -/

theorem assocGet_isSome_iff {α : Type} (m : List (String × α)) (k : String) :
    (assocGet m k).isSome ↔ k ∈ m.map (·.1) := by
  induction m with
  | nil => simp [assocGet]
  | cons kv t ih =>
    by_cases h : kv.1 = k
    · subst h
      simp [assocGet]
    · rw [List.map_cons, List.mem_cons]
      simp only [assocGet, if_neg h, ih]
      constructor
      · exact fun hm => Or.inr hm
      · rintro (rfl | hm)
        · exact absurd rfl h
        · exact hm

theorem filterMap_length_of_isSome {α β : Type} (f : α → Option β) :
    ∀ l : List α, (∀ a ∈ l, (f a).isSome) → (l.filterMap f).length = l.length := by
  intro l
  induction l with
  | nil => intro _; rfl
  | cons a t ih =>
    intro h
    obtain ⟨b, hb⟩ := Option.isSome_iff_exists.mp (h a (by simp))
    rw [List.filterMap_cons, hb]
    simp only [List.length_cons]
    rw [ih (fun x hx => h x (by simp [hx]))]

theorem sdiffL_nil_right (l : List String) : sdiffL l [] = l := by
  unfold sdiffL
  simp

theorem keySdiff_nil_right (l : List NKey) : keySdiff l [] = l := by
  unfold keySdiff
  simp

/-- Membership in a record-domain diff against the empty before-map: the
entries are exactly the emits of the keys whose after-attributes differ from
the default. -/
theorem recordDelta_nil_left_mem {α β : Type} [DecidableEq α] (defa : α)
    (emit : String → α → α → β) (B : List (String × α)) (x : β) :
    x ∈ recordDelta defa emit [] B ↔
      ∃ k b, assocGet B k = some b ∧ b ≠ defa ∧ x = emit k defa b := by
  unfold recordDelta
  rw [List.mem_filterMap]
  constructor
  · rintro ⟨k, hk, hfk⟩
    simp only [assocGet, Option.getD_none] at hfk
    cases hbk : assocGet B k with
    | none => rw [hbk] at hfk; simp at hfk
    | some b =>
      rw [hbk] at hfk
      simp only [Option.getD_some] at hfk
      by_cases hne : defa = b
      · rw [if_pos hne] at hfk
        exact absurd hfk (by simp)
      · rw [if_neg hne] at hfk
        exact ⟨k, b, hbk, fun hb => hne hb.symm, (Option.some_inj.mp hfk).symm⟩
  · rintro ⟨k, b, hbk, hne, rfl⟩
    refine ⟨k, ?_, ?_⟩
    · have hmem : k ∈ B.map (·.1) := (assocGet_isSome_iff B k).mp (by simp [hbk])
      have hdd : k ∈ (List.map (·.1) ([] : List (String × α)) ++ B.map (·.1)).dedup :=
        List.mem_dedup.mpr (by simpa using hmem)
      exact ((List.perm_insertionSort strLe _).mem_iff).mpr hdd
    · simp only [assocGet, hbk, Option.getD_some, Option.getD_none]
      rw [if_neg (fun h : defa = b => hne (Eq.symm h))]

theorem nmapGet_isSome_iff (m : List (NKey × NRow)) (k : NKey) :
    (nmapGet m k).isSome ↔ k ∈ m.map (·.1) := by
  induction m with
  | nil => simp [nmapGet]
  | cons kv t ih =>
    by_cases h : kv.1 = k
    · subst h
      simp [nmapGet]
    · rw [List.map_cons, List.mem_cons]
      simp only [nmapGet, if_neg h, ih]
      constructor
      · exact fun hm => Or.inr hm
      · rintro (rfl | hm)
        · exact absurd rfl h
        · exact hm

/-- C5 amended: with no previous snapshot, every domain removes nothing; the
VLAN domain adds exactly the ids extracted from the current snapshot (in
numeric order) and the neighbor domain adds one entry per merged adjacency
of the current snapshot; the record-style domains (interfaces,
port-channels, trunks) emit an entry, with empty from-side fields, for
exactly those current keys whose attributes are not all empty — a key whose
extracted attributes all equal the empty default yields no entry. -/
theorem diff_absent_prev_everything_added (curr : List CommandEntry) :
    (migration_deltas_of_snaps none curr).vlans.added =
      List.insertionSort numLe
        (vlansOf (get_parsed (snapshot_to_cmdmap curr) "show vlan brief")) ∧
    (migration_deltas_of_snaps none curr).vlans.removed = [] ∧
    (migration_deltas_of_snaps none curr).neighbors.removed = [] ∧
    (migration_deltas_of_snaps none curr).neighbors.added.length =
      (merge_by_neighbor_port (collect_neighbors (snapshot_to_cmdmap curr))).length ∧
    (∀ e ∈ (migration_deltas_of_snaps none curr).interfaces,
      e.status_from = "" ∧ e.vlan_from = "") ∧
    (∀ k : String,
      (∃ e ∈ (migration_deltas_of_snaps none curr).interfaces, e.interface = k) ↔
      (∃ b, assocGet (interfacesMap (get_parsed (snapshot_to_cmdmap curr)
          "show interfaces status")) k = some b ∧ b ≠ { status := "", vlan := "" })) ∧
    (∀ e ∈ (migration_deltas_of_snaps none curr).portchannels,
      e.state_from = "" ∧ e.members_from = "") ∧
    (∀ k : String,
      (∃ e ∈ (migration_deltas_of_snaps none curr).portchannels, e.po = k) ↔
      (∃ b, assocGet (portchannelsMap (get_parsed (snapshot_to_cmdmap curr)
          "show etherchannel summary")) k = some b ∧ b ≠ { state := "", members := "" })) ∧
    (∀ e ∈ (migration_deltas_of_snaps none curr).trunks,
      e.native_from = "" ∧ e.allowed_from = "") ∧
    (∀ k : String,
      (∃ e ∈ (migration_deltas_of_snaps none curr).trunks, e.interface = k) ↔
      (∃ b, assocGet (trunksMap (get_parsed (snapshot_to_cmdmap curr)
          "show interfaces trunk")) k = some b ∧ b ≠ { native := "", allowed := "" })) := by
  have hv : (migration_deltas_of_snaps none curr).vlans =
      { added := List.insertionSort numLe
          (vlansOf (get_parsed (snapshot_to_cmdmap curr) "show vlan brief")),
        removed := [] } := by
    show diff_vlans [] (snapshot_to_cmdmap curr) = _
    unfold diff_vlans
    dsimp only
    rw [show vlansOf (get_parsed [] "show vlan brief") = [] from rfl, sdiffL_nil_right]
    rfl
  have hnr : (migration_deltas_of_snaps none curr).neighbors.removed = [] := rfl
  have hna : (migration_deltas_of_snaps none curr).neighbors.added.length =
      (merge_by_neighbor_port (collect_neighbors (snapshot_to_cmdmap curr))).length := by
    show (diff_neighbors [] (snapshot_to_cmdmap curr)).added.length = _
    unfold diff_neighbors
    dsimp only
    rw [show merge_by_neighbor_port (collect_neighbors ([] : Cmdmap)) = [] from rfl]
    rw [show List.map (·.1) ([] : List (NKey × NRow)) = [] from rfl, keySdiff_nil_right]
    rw [filterMap_length_of_isSome]
    · rw [(List.perm_insertionSort pairLe _).length_eq, List.length_map]
    · intro k hk
      have hmem : k ∈ (merge_by_neighbor_port
          (collect_neighbors (snapshot_to_cmdmap curr))).map (·.1) :=
        ((List.perm_insertionSort pairLe _).mem_iff).mp hk
      have hsome := (nmapGet_isSome_iff _ _).mpr hmem
      cases hg : nmapGet (merge_by_neighbor_port
          (collect_neighbors (snapshot_to_cmdmap curr))) k with
      | none => rw [hg] at hsome; exact absurd hsome (by simp)
      | some r => rfl
  have hI : (migration_deltas_of_snaps none curr).interfaces =
      recordDelta { status := "", vlan := "" }
        (fun k a b => { interface := k, status_from := a.status, status_to := b.status,
                        vlan_from := a.vlan, vlan_to := b.vlan }) []
        (interfacesMap (get_parsed (snapshot_to_cmdmap curr) "show interfaces status")) := by
    show diff_interfaces [] (snapshot_to_cmdmap curr) = _
    unfold diff_interfaces
    dsimp only
    rw [show interfacesMap (get_parsed [] "show interfaces status") = [] from rfl]
  have hP : (migration_deltas_of_snaps none curr).portchannels =
      recordDelta { state := "", members := "" }
        (fun k a b => { po := k, state_from := a.state, state_to := b.state,
                        members_from := a.members, members_to := b.members }) []
        (portchannelsMap (get_parsed (snapshot_to_cmdmap curr) "show etherchannel summary")) := by
    show diff_portchannels [] (snapshot_to_cmdmap curr) = _
    unfold diff_portchannels
    dsimp only
    rw [show portchannelsMap (get_parsed [] "show etherchannel summary") = [] from rfl]
  have hT : (migration_deltas_of_snaps none curr).trunks =
      recordDelta { native := "", allowed := "" }
        (fun k a b => { interface := k, native_from := a.native, native_to := b.native,
                        allowed_from := a.allowed, allowed_to := b.allowed }) []
        (trunksMap (get_parsed (snapshot_to_cmdmap curr) "show interfaces trunk")) := by
    show diff_trunks [] (snapshot_to_cmdmap curr) = _
    unfold diff_trunks
    dsimp only
    rw [show trunksMap (get_parsed [] "show interfaces trunk") = [] from rfl]
  refine ⟨by rw [hv], by rw [hv], hnr, hna, ?_, ?_, ?_, ?_, ?_, ?_⟩
  · intro e he
    rw [hI] at he
    obtain ⟨k, b, _, _, rfl⟩ := (recordDelta_nil_left_mem _ _ _ _).mp he
    exact ⟨rfl, rfl⟩
  · intro k
    constructor
    · rintro ⟨e, he, hek⟩
      rw [hI] at he
      obtain ⟨k2, b, hg, hne, rfl⟩ := (recordDelta_nil_left_mem _ _ _ _).mp he
      have hkk : k2 = k := hek
      subst hkk
      exact ⟨b, hg, hne⟩
    · rintro ⟨b, hg, hne⟩
      refine ⟨{ interface := k, status_from := "", status_to := b.status,
                vlan_from := "", vlan_to := b.vlan }, ?_, rfl⟩
      rw [hI]
      exact (recordDelta_nil_left_mem _ _ _ _).mpr ⟨k, b, hg, hne, rfl⟩
  · intro e he
    rw [hP] at he
    obtain ⟨k, b, _, _, rfl⟩ := (recordDelta_nil_left_mem _ _ _ _).mp he
    exact ⟨rfl, rfl⟩
  · intro k
    constructor
    · rintro ⟨e, he, hek⟩
      rw [hP] at he
      obtain ⟨k2, b, hg, hne, rfl⟩ := (recordDelta_nil_left_mem _ _ _ _).mp he
      have hkk : k2 = k := hek
      subst hkk
      exact ⟨b, hg, hne⟩
    · rintro ⟨b, hg, hne⟩
      refine ⟨{ po := k, state_from := "", state_to := b.state,
                members_from := "", members_to := b.members }, ?_, rfl⟩
      rw [hP]
      exact (recordDelta_nil_left_mem _ _ _ _).mpr ⟨k, b, hg, hne, rfl⟩
  · intro e he
    rw [hT] at he
    obtain ⟨k, b, _, _, rfl⟩ := (recordDelta_nil_left_mem _ _ _ _).mp he
    exact ⟨rfl, rfl⟩
  · intro k
    constructor
    · rintro ⟨e, he, hek⟩
      rw [hT] at he
      obtain ⟨k2, b, hg, hne, rfl⟩ := (recordDelta_nil_left_mem _ _ _ _).mp he
      have hkk : k2 = k := hek
      subst hkk
      exact ⟨b, hg, hne⟩
    · rintro ⟨b, hg, hne⟩
      refine ⟨{ interface := k, native_from := "", native_to := b.native,
                allowed_from := "", allowed_to := b.allowed }, ?_, rfl⟩
      rw [hT]
      exact (recordDelta_nil_left_mem _ _ _ _).mpr ⟨k, b, hg, hne, rfl⟩

/-- C5 counterexample: the interface Gi1 is present in the current snapshot
(it is the one key of the interfaces key map), yet diffing with an absent
previous snapshot emits no interfaces entry at all, because its extracted
attributes all equal the empty default; so added is not everything present
in the current snapshot in every domain. -/
theorem diff_absent_prev_misses_empty_attrs :
    (migration_deltas_of_snaps none snapIfaceOnly).interfaces = [] ∧
    (interfacesMap (get_parsed (snapshot_to_cmdmap snapIfaceOnly)
      "show interfaces status")).map (·.1) = ["Gi1"] := by
  refine ⟨by decide, by decide⟩

/-- C5 witness: the amended theorem applied at a concrete snapshot with two
VLANs: both become vlans.added, in numeric order, and nothing is removed. -/
theorem diff_absent_prev_everything_added_witness :
    (migration_deltas_of_snaps none snapVlansOnly).vlans.added = ["10", "20"] ∧
    (migration_deltas_of_snaps none snapVlansOnly).vlans.removed = [] :=
  ⟨(diff_absent_prev_everything_added snapVlansOnly).1.trans (by decide),
   (diff_absent_prev_everything_added snapVlansOnly).2.1⟩

/-! ### Facts about the neighbor merge dictionary -/

theorem nmapGet_mem {m : List (NKey × NRow)} {k : NKey} {r : NRow}
    (h : nmapGet m k = some r) : (k, r) ∈ m := by
  induction m with
  | nil => simp [nmapGet] at h
  | cons kv t ih =>
    rw [nmapGet] at h
    by_cases h0 : kv.1 = k
    · rw [if_pos h0] at h
      have : kv = (k, r) := by
        cases kv
        simp_all
      simp [this]
    · rw [if_neg h0] at h
      exact List.mem_cons_of_mem _ (ih h)

theorem nmapGet_eq_of_mem_nodup {m : List (NKey × NRow)} {k : NKey} {r : NRow}
    (hnd : (m.map (·.1)).Nodup) (h : (k, r) ∈ m) : nmapGet m k = some r := by
  induction m with
  | nil => simp at h
  | cons kv t ih =>
    rw [List.map_cons, List.nodup_cons] at hnd
    rcases List.mem_cons.mp h with rfl | hm
    · rw [nmapGet, if_pos rfl]
    · have hk : k ∈ t.map (·.1) := List.mem_map.mpr ⟨(k, r), hm, rfl⟩
      have h0 : kv.1 ≠ k := fun he => hnd.1 (he ▸ hk)
      rw [nmapGet, if_neg h0]
      exact ih hnd.2 hm

theorem nmapSet_keys {m : List (NKey × NRow)} {k : NKey} (v : NRow)
    (hk : k ∈ m.map (·.1)) : (nmapSet m k v).map (·.1) = m.map (·.1) := by
  induction m with
  | nil => simp at hk
  | cons kv t ih =>
    rw [nmapSet]
    by_cases h0 : kv.1 = k
    · rw [if_pos h0]
      simp [h0]
    · rw [if_neg h0]
      rw [List.map_cons, List.map_cons] at *
      rcases List.mem_cons.mp hk with rfl | hm
    -- k = kv.1 contradicts h0
      · exact absurd rfl h0
      · rw [ih hm]

theorem nmapSet_mem {m : List (NKey × NRow)} {k : NKey} {v : NRow} {kv2 : NKey × NRow}
    (hnd : (m.map (·.1)).Nodup) (h : kv2 ∈ nmapSet m k v) :
    kv2 = (k, v) ∨ (kv2 ∈ m ∧ kv2.1 ≠ k) := by
  induction m with
  | nil =>
    rw [nmapSet] at h
    rcases List.mem_cons.mp h with rfl | hm
    · exact Or.inl rfl
    · simp at hm
  | cons kv0 t ih =>
    rw [List.map_cons, List.nodup_cons] at hnd
    rw [nmapSet] at h
    by_cases h0 : kv0.1 = k
    · rw [if_pos h0] at h
      rcases List.mem_cons.mp h with rfl | hm
      · exact Or.inl rfl
      · have hk2 : kv2.1 ∈ t.map (·.1) := List.mem_map.mpr ⟨kv2, hm, rfl⟩
        have : kv2.1 ≠ k := fun he => hnd.1 (h0 ▸ he ▸ hk2)
        exact Or.inr ⟨List.mem_cons_of_mem _ hm, this⟩
    · rw [if_neg h0] at h
      rcases List.mem_cons.mp h with rfl | hm
      · exact Or.inr ⟨List.mem_cons_self _ _, h0⟩
      · rcases ih hnd.2 hm with h2 | ⟨h2, h3⟩
        · exact Or.inl h2
        · exact Or.inr ⟨List.mem_cons_of_mem _ h2, h3⟩

theorem mergeStep_inv (procd : List NRow) (m : List (NKey × NRow)) (r : NRow)
    (h : MergeInv procd m) : MergeInv (procd ++ [r]) (mergeStep m r) := by
  obtain ⟨hnd, hcov, hent⟩ := h
  cases hg : nmapGet m (nkeyOf r) with
  | none =>
    have hknotin : nkeyOf r ∉ m.map (·.1) := by
      intro hk
      have hs := (nmapGet_isSome_iff m (nkeyOf r)).mpr hk
      rw [hg] at hs
      exact absurd hs (by simp)
    have hout : mergeStep m r = m ++ [(nkeyOf r, r)] := by
      unfold mergeStep
      rw [hg]
    rw [hout]
    refine ⟨?_, ?_, ?_⟩
    · rw [List.map_append]
      rw [List.nodup_append]
      refine ⟨hnd, by simp, ?_⟩
      intro a ha hb
      simp only [List.map_cons, List.map_nil, List.mem_cons, List.not_mem_nil,
        or_false] at hb
      exact hknotin (hb ▸ ha)
    · intro q hq
      rw [List.map_append]
      rcases List.mem_append.mp hq with hql | hqr
      · exact List.mem_append_left _ (hcov q hql)
      · simp only [List.mem_cons, List.not_mem_nil, or_false] at hqr
        subst hqr
        exact List.mem_append_right _ (by simp)
    · intro kr hkr
      rcases List.mem_append.mp hkr with hin | hnew
      · obtain ⟨hk, hpop, hemp⟩ := hent kr hin
        have hkey_ne : nkeyOf r ≠ kr.1 := by
          intro he
          exact hknotin (he ▸ List.mem_map.mpr ⟨kr, hin, rfl⟩)
        refine ⟨hk, ?_, ?_⟩
        · intro hne
          obtain ⟨q, hq, hq2, hq3⟩ := hpop hne
          exact ⟨q, List.mem_append_left _ hq, hq2, hq3⟩
        · intro he q hq hqk
          rcases List.mem_append.mp hq with hql | hqr
          · exact hemp he q hql hqk
          · simp only [List.mem_cons, List.not_mem_nil, or_false] at hqr
            subst hqr
            exact absurd hqk hkey_ne
      · simp only [List.mem_cons, List.not_mem_nil, or_false] at hnew
        subst hnew
        refine ⟨rfl, ?_, ?_⟩
        · intro hne
          exact ⟨r, List.mem_append_right _ (by simp), rfl, rfl⟩
        · intro he q hq hqk
          rcases List.mem_append.mp hq with hql | hqr
          · have h2 : nkeyOf r = nkeyOf q := hqk.symm
            have h3 : nkeyOf r ∈ List.map (fun x => x.1) m := by
              rw [h2]
              exact hcov q hql
            exact absurd h3 hknotin
          · simp only [List.mem_cons, List.not_mem_nil, or_false] at hqr
            subst hqr
            exact he
  | some cur =>
    have hmem_cur : (nkeyOf r, cur) ∈ m := nmapGet_mem hg
    have hkmem : nkeyOf r ∈ m.map (·.1) := List.mem_map.mpr ⟨(nkeyOf r, cur), hmem_cur, rfl⟩
    by_cases hup : cur.local_if = "" ∧ r.local_if ≠ ""
    · have hout : mergeStep m r =
          nmapSet m (nkeyOf r) { cur with local_if := r.local_if } := by
        unfold mergeStep
        rw [hg]
        exact if_pos hup
      rw [hout]
      have hkeys := nmapSet_keys (m := m) (k := nkeyOf r)
        { cur with local_if := r.local_if } hkmem
      refine ⟨by rw [hkeys]; exact hnd, ?_, ?_⟩
      · intro q hq
        rw [hkeys]
        rcases List.mem_append.mp hq with hql | hqr
        · exact hcov q hql
        · simp only [List.mem_cons, List.not_mem_nil, or_false] at hqr
          subst hqr
          exact hkmem
      · intro kr hkr
        rcases nmapSet_mem hnd hkr with hnew | ⟨hin, hne⟩
        · subst hnew
          refine ⟨(hent _ hmem_cur).1, ?_, ?_⟩
          · intro _
            exact ⟨r, List.mem_append_right _ (by simp), rfl, rfl⟩
          · intro he
            exact absurd he hup.2
        · obtain ⟨hk, hpop, hemp⟩ := hent kr hin
          refine ⟨hk, ?_, ?_⟩
          · intro h2
            obtain ⟨q, hq, hq2, hq3⟩ := hpop h2
            exact ⟨q, List.mem_append_left _ hq, hq2, hq3⟩
          · intro he q hq hqk
            rcases List.mem_append.mp hq with hql | hqr
            · exact hemp he q hql hqk
            · simp only [List.mem_cons, List.not_mem_nil, or_false] at hqr
              subst hqr
              exact absurd hqk (fun h2 => hne h2.symm)
    · have hout : mergeStep m r = m := by
        unfold mergeStep
        rw [hg]
        exact if_neg hup
      rw [hout]
      refine ⟨hnd, ?_, ?_⟩
      · intro q hq
        rcases List.mem_append.mp hq with hql | hqr
        · exact hcov q hql
        · simp only [List.mem_cons, List.not_mem_nil, or_false] at hqr
          subst hqr
          exact hkmem
      · intro kr hkr
        obtain ⟨hk, hpop, hemp⟩ := hent kr hkr
        refine ⟨hk, ?_, ?_⟩
        · intro h2
          obtain ⟨q, hq, hq2, hq3⟩ := hpop h2
          exact ⟨q, List.mem_append_left _ hq, hq2, hq3⟩
        · intro he q hq hqk
          rcases List.mem_append.mp hq with hql | hqr
          · exact hemp he q hql hqk
          · simp only [List.mem_cons, List.not_mem_nil, or_false] at hqr
            rw [hqr] at hqk ⊢
            have h1 := nmapGet_eq_of_mem_nodup hnd
              (show (kr.1, kr.2) ∈ m from hkr)
            rw [← hqk] at h1
            rw [h1] at hg
            have hkv : kr.2 = cur := Option.some_inj.mp hg
            have hcur_emp : cur.local_if = "" := hkv ▸ he
            by_cases hrl : r.local_if = ""
            · exact hrl
            · exact absurd ⟨hcur_emp, hrl⟩ hup

theorem mergeFold_inv : ∀ (rows procd : List NRow) (m : List (NKey × NRow)),
    MergeInv procd m → MergeInv (procd ++ rows) (rows.foldl mergeStep m)
  | [], procd, m, h => by simpa using h
  | r :: rows, procd, m, h => by
    have h2 := mergeFold_inv rows (procd ++ [r]) (mergeStep m r) (mergeStep_inv procd m r h)
    simpa [List.append_assoc] using h2

theorem mergeInv_of_rows (rows : List NRow) : MergeInv rows (merge_by_neighbor_port rows) := by
  have h0 : MergeInv [] [] := ⟨List.nodup_nil, by simp, by simp⟩
  have h := mergeFold_inv rows [] [] h0
  simpa [merge_by_neighbor_port] using h

theorem map_filterMap_of_section {α β : Type} (f : α → Option β) (g : β → α) :
    ∀ l : List α, (∀ a ∈ l, ∀ b, f a = some b → g b = a) →
      (l.filterMap f).map g = l.filter (fun a => (f a).isSome) := by
  intro l
  induction l with
  | nil => intro _; rfl
  | cons a t ih =>
    intro h
    rw [List.filterMap_cons, List.filter_cons]
    cases hfa : f a with
    | none =>
      simp only [hfa, Option.isSome_none, Bool.false_eq_true, if_false]
      exact ih (fun x hx => h x (List.mem_cons_of_mem _ hx))
    | some b =>
      simp only [hfa, Option.isSome_some, if_true]
      rw [List.map_cons, h a (List.mem_cons_self _ _) b hfa,
        ih (fun x hx => h x (List.mem_cons_of_mem _ hx))]

theorem diff_neighbors_added_keys_nodup (prevM currM : Cmdmap) :
    ((diff_neighbors prevM currM).added.map
      (fun e => (lowerS (stripS e.neighbor), lowerS (stripS e.neighbor_if)))).Nodup := by
  obtain ⟨hndC, _, hentC⟩ := mergeInv_of_rows (collect_neighbors currM)
  unfold diff_neighbors
  dsimp only
  have hsec : ∀ k ∈ List.insertionSort pairLe
      (keySdiff ((merge_by_neighbor_port (collect_neighbors currM)).map (·.1))
        ((merge_by_neighbor_port (collect_neighbors prevM)).map (·.1))),
      ∀ e, (nmapGet (merge_by_neighbor_port (collect_neighbors currM)) k).map nrefOf =
        some e → (lowerS (stripS e.neighbor), lowerS (stripS e.neighbor_if)) = k := by
    intro k _ e he
    cases hg : nmapGet (merge_by_neighbor_port (collect_neighbors currM)) k with
    | none => rw [hg] at he; exact absurd he (by simp)
    | some r =>
      rw [hg] at he
      have hre : e = nrefOf r := (Option.some_inj.mp he).symm
      subst hre
      have hmem := nmapGet_mem hg
      exact (hentC _ hmem).1
  rw [map_filterMap_of_section _ _ _ hsec]
  apply List.Nodup.filter
  exact ((List.perm_insertionSort pairLe _).nodup_iff).mpr (hndC.filter _)

/-- C9: merging the CDP and LLDP rows of a snapshot keys the result by the
case-folded (neighbor, remote port) pair and the merged map has pairwise
distinct keys, so an adjacency reported by both protocols yields exactly one
entry; the entry keeps its own key, and whenever any source row for the key
has a populated local interface the merged entry carries a populated local
interface taken from one of those rows; consequently the neighbor delta
never lists the same adjacency key twice in its added entries. -/
theorem merge_neighbors_unique :
    (∀ rows : List NRow,
      ((merge_by_neighbor_port rows).map (·.1)).Nodup ∧
      (∀ kr ∈ merge_by_neighbor_port rows, nkeyOf kr.2 = kr.1 ∧
        ((∃ q ∈ rows, nkeyOf q = kr.1 ∧ q.local_if ≠ "") →
          kr.2.local_if ≠ "" ∧
          ∃ q ∈ rows, nkeyOf q = kr.1 ∧ q.local_if = kr.2.local_if))) ∧
    (∀ prevM currM : Cmdmap,
      ((diff_neighbors prevM currM).added.map
        (fun e => (lowerS (stripS e.neighbor), lowerS (stripS e.neighbor_if)))).Nodup) := by
  constructor
  · intro rows
    obtain ⟨hnd, _, hent⟩ := mergeInv_of_rows rows
    refine ⟨hnd, ?_⟩
    intro kr hkr
    obtain ⟨hk, hpop, hemp⟩ := hent kr hkr
    refine ⟨hk, ?_⟩
    rintro ⟨q, hq, hqk, hql⟩
    by_cases hl : kr.2.local_if = ""
    · exact absurd (hemp hl q hq hqk) hql
    · exact ⟨hl, hpop hl⟩
  · exact diff_neighbors_added_keys_nodup

/-- C9 witness: the CDP and LLDP reports of the same adjacency merge into
exactly one entry whose local interface is the populated CDP value. -/
theorem merge_neighbors_unique_witness :
    ((merge_by_neighbor_port nrowsCdpLldp).map (·.1)).Nodup ∧
    merge_by_neighbor_port nrowsCdpLldp =
      [(("sw2", "gi1/0/2"),
        { neighbor := "sw2", local_if := "Gi1/0/1", neighbor_if := "Gi1/0/2",
          proto := "CDP" })] :=
  ⟨(merge_neighbors_unique.1 nrowsCdpLldp).1, by decide⟩

/-! ### Retention analysis of the snapshot store -/

theorem drop_one_orderedInsert_drop (t : String) :
    ∀ (s : List String) (j : Nat), List.Sorted strLe s →
      (List.orderedInsert strLe t (s.drop j)).drop 1 =
        (List.orderedInsert strLe t s).drop (j + 1)
  | _, 0, _ => rfl
  | [], _+1, _ => by simp
  | x :: s2, j+1, hs => by
    rw [List.drop_succ_cons]
    by_cases hle : strLe t x
    · rw [List.orderedInsert_of_le strLe s2 hle, List.drop_succ_cons, List.drop_succ_cons]
      have hall : ∀ y ∈ s2, strLe x y := (List.sorted_cons.mp hs).1
      have hins : List.orderedInsert strLe t (s2.drop j) = t :: s2.drop j := by
        cases hd : s2.drop j with
        | nil => rfl
        | cons y ys =>
          have hy : y ∈ s2 := List.drop_subset j s2 (hd ▸ List.mem_cons_self y ys)
          exact List.orderedInsert_of_le strLe ys (strLe_trans hle (hall y hy))
      rw [hins, List.drop_succ_cons, List.drop_zero]
    · have hstep : List.orderedInsert strLe t (x :: s2) =
          x :: List.orderedInsert strLe t s2 := by
        simp [List.orderedInsert, hle]
      rw [hstep, List.drop_succ_cons]
      exact drop_one_orderedInsert_drop t s2 j (List.sorted_cons.mp hs).2

theorem sortTs_append_singleton (P : List String) (t : String) :
    sortTs (P ++ [t]) = List.orderedInsert strLe t (sortTs P) := by
  have hperm : List.Perm (List.insertionSort strLe (P ++ [t]))
      (List.orderedInsert strLe t (sortTs P)) :=
    ((List.perm_insertionSort strLe (P ++ [t])).trans
      (List.perm_append_singleton t P)).trans
      ((((List.perm_insertionSort strLe P).symm).cons t).trans
        ((List.perm_orderedInsert strLe t (sortTs P)).symm))
  exact List.eq_of_perm_of_sorted hperm (List.sorted_insertionSort strLe _)
    ((List.sorted_insertionSort strLe P).orderedInsert t _)

theorem save_step_top (m : Nat) (hostname t : String) (P : List String) (ht : t ∉ P) :
    (save_snapshot (fun _ => true) m ((sortTs P).drop (P.length - m)) hostname t).2 =
      (sortTs (P ++ [t])).drop (P.length + 1 - m) := by
  have hsP : List.Sorted strLe (sortTs P) := List.sorted_insertionSort strLe P
  have hlenP : (sortTs P).length = P.length := (List.perm_insertionSort strLe P).length_eq
  have htstore : t ∉ (sortTs P).drop (P.length - m) := fun hmem =>
    ht (((List.perm_insertionSort strLe P).mem_iff).mp (List.drop_subset _ _ hmem))
  have hfiles : insertTs t ((sortTs P).drop (P.length - m)) =
      List.orderedInsert strLe t ((sortTs P).drop (P.length - m)) := by
    unfold insertTs
    rw [if_neg htstore]
  have hlen_store : ((sortTs P).drop (P.length - m)).length = P.length - (P.length - m) := by
    rw [List.length_drop, hlenP]
  have hlen_files : (List.orderedInsert strLe t ((sortTs P).drop (P.length - m))).length =
      P.length - (P.length - m) + 1 := by
    rw [(List.perm_orderedInsert strLe t _).length_eq, List.length_cons, hlen_store]
  unfold save_snapshot
  dsimp only
  rw [hfiles, hlen_files]
  simp only [Bool.not_true, List.filter_false, List.nil_append]
  by_cases hm : P.length ≤ m
  · have h0 : P.length - m = 0 := Nat.sub_eq_zero_of_le hm
    rw [h0, List.drop_zero] at *
    rw [show P.length - 0 + 1 - m = P.length + 1 - m by omega]
    rw [← sortTs_append_singleton]
  · have hms : P.length - (P.length - m) = m := by omega
    rw [hms, Nat.add_sub_cancel_left m 1]
    rw [drop_one_orderedInsert_drop t (sortTs P) (P.length - m) hsP]
    rw [← sortTs_append_singleton]
    rw [show P.length - m + 1 = P.length + 1 - m by omega]

theorem saveAll_top (m : Nat) (hostname : String) :
    ∀ (tss P : List String), (P ++ tss).Nodup →
      saveAll m hostname ((sortTs P).drop (P.length - m)) tss =
        (sortTs (P ++ tss)).drop ((P ++ tss).length - m)
  | [], P, _ => by simp [saveAll]
  | t :: tss, P, hnd => by
    have ht : t ∉ P := by
      obtain ⟨_, _, hdisj⟩ := List.nodup_append.mp hnd
      intro htP
      exact hdisj htP (List.mem_cons_self t tss)
    have hnd2 : ((P ++ [t]) ++ tss).Nodup := by
      rw [List.append_assoc, List.singleton_append]
      exact hnd
    have hstep := save_step_top m hostname t P ht
    have hrec := saveAll_top m hostname tss (P ++ [t]) hnd2
    have hfirst : saveAll m hostname ((sortTs P).drop (P.length - m)) (t :: tss) =
        saveAll m hostname
          ((save_snapshot (fun _ => true) m ((sortTs P).drop (P.length - m)) hostname t).2)
          tss := rfl
    rw [hfirst, hstep]
    rw [show P.length + 1 - m = (P ++ [t]).length - m by simp]
    rw [hrec]
    rw [List.append_assoc, List.singleton_append]

/-- C8: starting from an empty history and saving maxKeep + k snapshots with
pairwise distinct timestamps, with every deletion succeeding, exactly
maxKeep snapshot files remain, namely the maxKeep newest by timestamp (the
remaining directory is the ascending sort of all timestamps with its k
oldest entries dropped); and independently of the deletion oracle (that is,
even when retention deletions fail) save returns the final path of the new
snapshot. -/
theorem save_snapshot_retention (maxKeep k : Nat) (hostname : String) (tss : List String)
    (hnd : tss.Nodup) (hlen : tss.length = maxKeep + k) :
    saveAll maxKeep hostname [] tss = (sortTs tss).drop k ∧
    (saveAll maxKeep hostname [] tss).length = maxKeep ∧
    (∀ (canDelete : String → Bool) (store : List String) (ts : String),
      (save_snapshot canDelete maxKeep store hostname ts).1 = snapshot_path hostname ts) := by
  have h1 : saveAll maxKeep hostname [] tss =
      (sortTs tss).drop (tss.length - maxKeep) := by
    have h0 := saveAll_top maxKeep hostname tss [] (by simpa using hnd)
    simpa [sortTs] using h0
  rw [hlen, Nat.add_sub_cancel_left maxKeep k] at h1
  have hl2 : (sortTs tss).length = tss.length :=
    (List.perm_insertionSort strLe tss).length_eq
  refine ⟨h1, ?_, ?_⟩
  · rw [h1, List.length_drop, hl2, hlen]
    omega
  · intro canDelete store ts
    rfl

/-- C8 witness: four distinct timestamps with maxKeep two: the two newest
remain, the two oldest are deleted, and a save whose deletions all fail
still returns the path of the new snapshot. -/
theorem save_snapshot_retention_witness :
    (["t1", "t2", "t3", "t4"] : List String).Nodup ∧
    (["t1", "t2", "t3", "t4"] : List String).length = 2 + 2 ∧
    saveAll 2 "h" [] ["t1", "t2", "t3", "t4"] = ["t3", "t4"] ∧
    (saveAll 2 "h" [] ["t1", "t2", "t3", "t4"]).length = 2 ∧
    (save_snapshot (fun _ => false) 2 ["t1", "t2", "t3"] "h" "t4").1 =
      snapshot_path "h" "t4" := by
  have h := save_snapshot_retention 2 2 "h" ["t1", "t2", "t3", "t4"]
    (by decide) (by decide)
  exact ⟨by decide, by decide, h.1.trans (by decide), h.2.1,
    h.2.2 (fun _ => false) ["t1", "t2", "t3"] "t4"⟩
